import Mathlib

/-!
Verification of `src/05-objects-tasks.js`: the `Rectangle` factory, the JSON
helpers `getJSON` / `fromJSON`, and the `cssSelectorBuilder` fluent builder.

The builder is embedded with an explicit heap (`Store`): JavaScript objects
are identified by indices into a list of `BuilderState` records.  In the
source, `copyBuilder` makes an `Object.create(this)` copy and then assigns
all three data properties (`cssCode`, `lastSelector`, `lastOrder`) as own
properties of the copy, so every builder object that escapes `copyBuilder`
carries concrete values for all three fields; property reads during the
validation checks resolve through the prototype chain to the receiver's own
values.  The flat record per object is therefore a faithful model.
Assignments such as `this.cssCode = ''` inside `stringify` create or
overwrite own properties of the receiver, which the model renders as an
in-place update of the receiver's heap cell.
-/

namespace CssBuilder

/-- State of one builder object: the own data properties `cssCode`,
`lastSelector` and `lastOrder` of the JavaScript object. -/
structure BuilderState where
  cssCode : String
  lastSelector : String
  lastOrder : Int
deriving DecidableEq, Repr

/-- Heap of builder objects; an object is an index into `objs`. -/
structure Store where
  objs : List BuilderState
deriving DecidableEq, Repr

/-- The values `cssCode: ''`, `lastSelector: ''`, `lastOrder: -1` — both the
initial own state of the shared `cssSelectorBuilder` object and the state
`stringify` resets its receiver to. -/
def emptyState : BuilderState := ⟨"", "", -1⟩

def Store.get (st : Store) (i : Nat) : BuilderState :=
  st.objs.getD i emptyState

def Store.set (st : Store) (i : Nat) (b : BuilderState) : Store :=
  ⟨st.objs.set i b⟩

/-- Initial heap: only the shared `cssSelectorBuilder` object, at index 0. -/
def initStore : Store := ⟨[emptyState]⟩

/-- The `correctOrder` array of the source. -/
def correctOrder : List String :=
  ["element", "id", "class", "attr", "pseudoClass", "pseudoElement"]

/-- `Array.prototype.indexOf`: index of the first occurrence, `-1` if absent. -/
def jsIndexOf : List String → String → Int
  | [], _ => -1
  | a :: rest, s =>
    if a = s then 0
    else
      let r := jsIndexOf rest s
      if r = -1 then -1 else r + 1

/-- `cssSelectorBuilder.getLastElemError` of the source. -/
def getLastElemError (self : BuilderState) (selector : String) : Bool :=
  ((selector == "id") && (selector == self.lastSelector))
    || ((selector == "element") && (selector == self.lastSelector))
    || ((selector == "pseudoElement") && (selector == self.lastSelector))

/-- `cssSelectorBuilder.incorrectOrder` of the source. -/
def incorrectOrder (self : BuilderState) (selector : String) : Bool :=
  (self.lastOrder != -1)
    && decide (jsIndexOf correctOrder selector < self.lastOrder)

/-- Message of the duplicate-category error thrown by `copyBuilder`
(verbatim, including the source's typos). -/
def dupErrMsg : String :=
  "Element, id and pseudo-element should not occur more then one time inside the selectord"

/-- Message of the out-of-order error thrown by `copyBuilder` (verbatim). -/
def orderErrMsg : String :=
  "Selector parts should be arranged in the following order: element, id, class, attribute, pseudo-class, pseudo-element"

/-- `cssSelectorBuilder.copyBuilder` of the source: validate against the
receiver's state, then allocate a fresh object whose `cssCode` is the
receiver's text plus the new fragment.  Returns the index of the new object. -/
def copyBuilder (st : Store) (selfId : Nat) (value selector : String) :
    Except String (Store × Nat) :=
  let self := st.get selfId
  if getLastElemError self selector then Except.error dupErrMsg
  else if incorrectOrder self selector then Except.error orderErrMsg
  else
    Except.ok
      (⟨st.objs ++ [⟨self.cssCode ++ value, selector, jsIndexOf correctOrder selector⟩]⟩,
        st.objs.length)

/-- `cssSelectorBuilder.stringify` of the source: return the receiver's
`cssCode` and reset the receiver's own state in place. -/
def stringify (st : Store) (selfId : Nat) : Store × String :=
  (st.set selfId emptyState, (st.get selfId).cssCode)

def element (st : Store) (i : Nat) (value : String) : Except String (Store × Nat) :=
  copyBuilder st i value "element"

def id (st : Store) (i : Nat) (value : String) : Except String (Store × Nat) :=
  copyBuilder st i ("#" ++ value) "id"

def «class» (st : Store) (i : Nat) (value : String) : Except String (Store × Nat) :=
  copyBuilder st i ("." ++ value) "class"

def attr (st : Store) (i : Nat) (value : String) : Except String (Store × Nat) :=
  copyBuilder st i ("[" ++ value ++ "]") "attr"

def pseudoClass (st : Store) (i : Nat) (value : String) : Except String (Store × Nat) :=
  copyBuilder st i (":" ++ value) "pseudoClass"

def pseudoElement (st : Store) (i : Nat) (value : String) : Except String (Store × Nat) :=
  copyBuilder st i ("::" ++ value) "pseudoElement"

/-- `cssSelectorBuilder.combine` of the source: `stringify` both argument
objects (mutating them), then append the combined fragment with the empty
selector category. -/
def combine (st : Store) (selfId leftId : Nat) (combinator : String) (rightId : Nat) :
    Except String (Store × Nat) :=
  let p1 := stringify st leftId
  let p2 := stringify p1.1 rightId
  copyBuilder p2.1 selfId (p1.2 ++ " " ++ combinator ++ " " ++ p2.2) ""

/-! Heap lemmas. -/

theorem Store.length_set (st : Store) (i : Nat) (x : BuilderState) :
    (st.set i x).objs.length = st.objs.length := by
  simp [Store.set]

theorem Store.get_of_le (st : Store) (i : Nat) (h : st.objs.length ≤ i) :
    st.get i = emptyState := by
  simp [Store.get, List.getD_eq_getElem?_getD, List.getElem?_eq_none h]

theorem Store.get_set (st : Store) (i j : Nat) (x : BuilderState) :
    (st.set i x).get j = if j = i ∧ j < st.objs.length then x else st.get j := by
  simp only [Store.get, Store.set, List.getD_eq_getElem?_getD, List.getElem?_set]
  split_ifs with h1 h2 h3 h4 <;> try simp_all
  · omega
  · rw [List.getElem?_eq_none (by omega)]
    rfl

theorem Store.get_concat_self (st : Store) (x : BuilderState) :
    (⟨st.objs ++ [x]⟩ : Store).get st.objs.length = x := by
  simp [Store.get, List.getD_eq_getElem?_getD, List.getElem?_concat_length]

theorem Store.get_concat_lt (st : Store) (x : BuilderState) (j : Nat)
    (h : j < st.objs.length) :
    (⟨st.objs ++ [x]⟩ : Store).get j = st.get j := by
  simp [Store.get, List.getD_eq_getElem?_getD, List.getElem?_append_left h]

/-! Lemmas about `jsIndexOf` and the validation checks. -/

theorem jsIndexOf_neg_one_le (l : List String) (s : String) : -1 ≤ jsIndexOf l s := by
  induction l with
  | nil => simp [jsIndexOf]
  | cons a t ih =>
    simp only [jsIndexOf]
    split_ifs <;> omega

theorem jsIndexOf_nonneg_of_mem {l : List String} {s : String} (h : s ∈ l) :
    0 ≤ jsIndexOf l s := by
  induction l with
  | nil => cases h
  | cons a t ih =>
    simp only [jsIndexOf]
    split_ifs with h1 h2
    · omega
    · rcases List.mem_cons.mp h with rfl | hmem
      · exact absurd rfl h1
      · have := ih hmem; omega
    · rcases List.mem_cons.mp h with rfl | hmem
      · exact absurd rfl h1
      · have := ih hmem; omega

theorem getLastElemError_eq_false_of_ne (self : BuilderState) (sel : String)
    (h : sel ≠ self.lastSelector) : getLastElemError self sel = false := by
  simp [getLastElemError, h]

theorem getLastElemError_eq_false_of_not_singleton (self : BuilderState) (sel : String)
    (h1 : sel ≠ "id") (h2 : sel ≠ "element") (h3 : sel ≠ "pseudoElement") :
    getLastElemError self sel = false := by
  simp [getLastElemError, h1, h2, h3]

theorem incorrectOrder_eq_false (self : BuilderState) (sel : String)
    (h : self.lastOrder ≤ jsIndexOf correctOrder sel) :
    incorrectOrder self sel = false := by
  have hd : decide (jsIndexOf correctOrder sel < self.lastOrder) = false := by
    simp; omega
  simp [incorrectOrder, hd]

theorem incorrectOrder_eq_true (self : BuilderState) (sel : String)
    (h0 : self.lastOrder ≠ -1) (h : jsIndexOf correctOrder sel < self.lastOrder) :
    incorrectOrder self sel = true := by
  simp [incorrectOrder, h0, h]

theorem copyBuilder_ok (st : Store) (i : Nat) (v sel : String)
    (h1 : getLastElemError (st.get i) sel = false)
    (h2 : incorrectOrder (st.get i) sel = false) :
    copyBuilder st i v sel =
      Except.ok
        (⟨st.objs ++ [⟨(st.get i).cssCode ++ v, sel, jsIndexOf correctOrder sel⟩]⟩,
          st.objs.length) := by
  simp [copyBuilder, h1, h2]

theorem copyBuilder_ok_inv (st : Store) (i : Nat) (v sel : String) (st' : Store) (k : Nat)
    (h : copyBuilder st i v sel = Except.ok (st', k)) :
    st' = ⟨st.objs ++ [⟨(st.get i).cssCode ++ v, sel, jsIndexOf correctOrder sel⟩]⟩
      ∧ k = st.objs.length := by
  simp only [copyBuilder] at h
  split_ifs at h with h1 h2
  cases h
  exact ⟨rfl, rfl⟩

/-! Concrete chains used as counterexamples and witnesses. -/

/-- Heap after `cssSelectorBuilder.element('div')`: snapshot 1 holds the text. -/
def c1st : Store := ⟨[emptyState, ⟨"div", "element", 0⟩]⟩

/-- The chain `element('div').id('x').element('span')` run from the entry point. -/
def c2chain : Except String (Store × Nat) :=
  match element initStore 0 "div" with
  | Except.ok p =>
    match id p.1 p.2 "x" with
    | Except.ok q => element q.1 q.2 "span"
    | Except.error e => Except.error e
  | Except.error e => Except.error e

/-- Heap after `element('div')` (snapshot 1) and `element('table')` (snapshot 2),
both chained from the shared entry point. -/
def c3st : Store := ⟨[emptyState, ⟨"div", "element", 0⟩, ⟨"table", "element", 0⟩]⟩

/-- Building the two argument snapshots of the `combine` example. -/
def c3chain : Except String (Store × Nat) :=
  match element initStore 0 "div" with
  | Except.ok p => element p.1 0 "table"
  | Except.error e => Except.error e

/-- Heap after `combine(div-snapshot, '+', table-snapshot)`: both argument
snapshots are reset and the combined text lives in the new snapshot 3. -/
def c3stAfter : Store := ⟨[emptyState, emptyState, emptyState, ⟨"div + table", "", -1⟩]⟩

/-- Heap after `cssSelectorBuilder.class('a')`. -/
def c4st : Store := ⟨[emptyState, ⟨".a", "class", 2⟩]⟩

/-! Claim theorems about the builder. -/

/-- C1, counterexample: the claim says that after `stringify()` the snapshot's
own accumulated text and last-category state are unchanged.  In the code the
reset acts on the receiver snapshot itself: after `element('div')` the
snapshot holds text `"div"`, and calling `stringify` on it returns `"div"`
but clears the snapshot's own state to the empty state. -/
theorem C1_counterexample :
    element initStore 0 "div" = Except.ok (c1st, 1)
      ∧ (c1st.get 1).cssCode = "div"
      ∧ (c1st.get 1).lastSelector = "element"
      ∧ (stringify c1st 1).2 = "div"
      ∧ (stringify c1st 1).1.get 1 = emptyState
      ∧ (stringify c1st 1).1.get 0 = c1st.get 0 :=
  ⟨rfl, rfl, rfl, rfl, rfl, rfl⟩

/-- C1, amended: `stringify()` returns the accumulated text of the snapshot it
is called on, and its reset side effect clears the receiver snapshot's own
accumulator and category-tracking state in place; every other object of the
heap — in particular the shared entry point when it is not the receiver — is
left unchanged. -/
theorem C1_theorem (st : Store) (i : Nat) :
    (stringify st i).2 = (st.get i).cssCode
      ∧ (stringify st i).1.get i = emptyState
      ∧ ∀ j, j ≠ i → (stringify st i).1.get j = st.get j := by
  refine ⟨rfl, ?_, ?_⟩
  · show (st.set i emptyState).get i = emptyState
    rw [Store.get_set]
    split_ifs with h
    · rfl
    · exact Store.get_of_le st i (by omega)
  · intro j hj
    show (st.set i emptyState).get j = st.get j
    rw [Store.get_set]
    split_ifs with h
    · exact absurd h.1 hj
    · rfl

/-- C1, witness for the amended theorem: `stringify` on snapshot 1 of the
concrete two-object heap leaves the shared entry point (index 0) unchanged. -/
theorem C1_witness : (stringify c1st 1).1.get 0 = c1st.get 0 :=
  (C1_theorem c1st 1).2.2 0 (by decide)

/-- C2, counterexample: `element('div').id('x').element('span')` does fail,
but with the ordering error (`incorrectOrder` fires because the rank of
`element` is below the rank of the last appended category `id`), not with the
duplicate-category error whose message says the part occurs more than once:
`getLastElemError` only compares against the immediately preceding category,
which is `id` here. -/
theorem C2_counterexample :
    c2chain = Except.error orderErrMsg ∧ orderErrMsg ≠ dupErrMsg :=
  ⟨rfl, by decide⟩

/-- C2, amended: the chain `element('div').id('x').element('span')` fails with
the OutOfOrderCategory error (the message about arranging parts in order),
because the repeated `element` has a lower rank than the preceding `id`. -/
theorem C2_theorem : c2chain = Except.error orderErrMsg := rfl

/-- C3, counterexample: the claim says no method ever mutates a previously
created snapshot.  `combine` (and the `stringify` it calls on its arguments)
does: after `combine(divSnapshot, '+', tableSnapshot)` the `div` snapshot's
accumulated text has been cleared from `"div"` to `""`. -/
theorem C3_counterexample :
    c3chain = Except.ok (c3st, 2)
      ∧ (c3st.get 1).cssCode = "div"
      ∧ combine c3st 0 1 "+" 2 = Except.ok (c3stAfter, 3)
      ∧ (c3stAfter.get 1).cssCode = "" :=
  ⟨rfl, rfl, rfl, rfl⟩

/-- C3, amended: the six chaining methods (element, id, class, attr,
pseudoClass, pseudoElement) never mutate existing snapshots — they all go
through `copyBuilder`, which leaves every existing object of the heap
unchanged and returns a fresh snapshot derived from the receiver plus the new
fragment.  (`stringify` resets its receiver and `combine` resets its two
argument snapshots, so they are excluded from the never-mutates statement.) -/
theorem C3_theorem (st : Store) (i : Nat) (v sel : String) (st' : Store) (k : Nat)
    (h : copyBuilder st i v sel = Except.ok (st', k)) :
    (∀ j, j < st.objs.length → st'.get j = st.get j)
      ∧ k = st.objs.length
      ∧ st'.objs.length = st.objs.length + 1
      ∧ st'.get k = ⟨(st.get i).cssCode ++ v, sel, jsIndexOf correctOrder sel⟩
      ∧ element st i v = copyBuilder st i v "element"
      ∧ id st i v = copyBuilder st i ("#" ++ v) "id"
      ∧ «class» st i v = copyBuilder st i ("." ++ v) "class"
      ∧ attr st i v = copyBuilder st i ("[" ++ v ++ "]") "attr"
      ∧ pseudoClass st i v = copyBuilder st i (":" ++ v) "pseudoClass"
      ∧ pseudoElement st i v = copyBuilder st i ("::" ++ v) "pseudoElement" := by
  obtain ⟨rfl, rfl⟩ := copyBuilder_ok_inv st i v sel st' k h
  refine ⟨?_, rfl, by simp, Store.get_concat_self st _, rfl, rfl, rfl, rfl, rfl, rfl⟩
  intro j hj
  exact Store.get_concat_lt st _ j hj

/-- C3, witness for the amended theorem: appending `element('div')` to the
initial heap leaves the shared entry point unchanged and allocates index 1. -/
theorem C3_witness :
    c1st.get 0 = initStore.get 0 ∧ c1st.objs.length = initStore.objs.length + 1 :=
  ⟨(C3_theorem initStore 0 "div" "element" c1st 1 rfl).1 0 (by decide),
    (C3_theorem initStore 0 "div" "element" c1st 1 rfl).2.2.1⟩

/-- C4: on a snapshot whose last appended category has rank `r` in the order
element < id < class < attr < pseudoClass < pseudoElement, appending a
category of strictly smaller rank fails with the OutOfOrderCategory error,
and appending a category of rank at least `r` passes the ordering check. -/
theorem C4_theorem (st : Store) (i : Nat) (v sel : String)
    (hlast : (st.get i).lastSelector ∈ correctOrder)
    (hrank : (st.get i).lastOrder = jsIndexOf correctOrder (st.get i).lastSelector) :
    (sel ∈ correctOrder → jsIndexOf correctOrder sel < (st.get i).lastOrder →
        copyBuilder st i v sel = Except.error orderErrMsg)
      ∧ ((st.get i).lastOrder ≤ jsIndexOf correctOrder sel →
        incorrectOrder (st.get i) sel = false) := by
  constructor
  · intro _ hlt
    have hne : sel ≠ (st.get i).lastSelector := by
      intro he
      rw [he] at hlt
      omega
    have h1 := getLastElemError_eq_false_of_ne (st.get i) sel hne
    have h0 : (st.get i).lastOrder ≠ -1 := by
      have := jsIndexOf_nonneg_of_mem hlast
      omega
    have h2 := incorrectOrder_eq_true (st.get i) sel h0 hlt
    simp [copyBuilder, h1, h2]
  · intro hle
    exact incorrectOrder_eq_false _ _ hle

/-- C4, witness: `class('a').id('b')` fails with the ordering error (`id` has
rank 1, below the rank 2 of the last appended `class`). -/
theorem C4_witness : copyBuilder c4st 1 "#b" "id" = Except.error orderErrMsg :=
  (C4_theorem c4st 1 "#b" "id" (by decide) (by decide)).1 (by decide) (by decide)

/-- C5: appending a category equal to the immediately preceding appended
category fails with the duplicate-category error exactly when that category
is one of element, id, pseudoElement; a back-to-back repeat of class, attr or
pseudoClass passes both checks and appends normally. -/
theorem C5_theorem (st : Store) (i : Nat) (v sel : String)
    (hdup : (st.get i).lastSelector = sel)
    (hrank : (st.get i).lastOrder = jsIndexOf correctOrder sel) :
    (sel ∈ (["element", "id", "pseudoElement"] : List String) →
        copyBuilder st i v sel = Except.error dupErrMsg)
      ∧ (sel ∈ (["class", "attr", "pseudoClass"] : List String) →
        copyBuilder st i v sel =
          Except.ok
            (⟨st.objs ++ [⟨(st.get i).cssCode ++ v, sel, jsIndexOf correctOrder sel⟩]⟩,
              st.objs.length)) := by
  constructor
  · intro hmem
    simp only [List.mem_cons, List.mem_singleton, List.not_mem_nil, or_false] at hmem
    have h1 : getLastElemError (st.get i) sel = true := by
      rcases hmem with rfl | rfl | rfl <;> simp [getLastElemError, hdup]
    simp [copyBuilder, h1]
  · intro hmem
    simp only [List.mem_cons, List.mem_singleton, List.not_mem_nil, or_false] at hmem
    have h1 : getLastElemError (st.get i) sel = false := by
      rcases hmem with rfl | rfl | rfl <;>
        exact getLastElemError_eq_false_of_not_singleton _ _
          (by decide) (by decide) (by decide)
    have h2 : incorrectOrder (st.get i) sel = false :=
      incorrectOrder_eq_false _ _ (le_of_eq hrank)
    exact copyBuilder_ok st i v sel h1 h2

/-- C5, witness: `element('div').element('span')` fails with the duplicate
error, while `class('a').class('b')` appends normally. -/
theorem C5_witness :
    copyBuilder c1st 1 "span" "element" = Except.error dupErrMsg
      ∧ copyBuilder c4st 1 ".b" "class" =
        Except.ok
          (⟨c4st.objs ++ [⟨(c4st.get 1).cssCode ++ ".b", "class",
              jsIndexOf correctOrder "class"⟩]⟩, c4st.objs.length) :=
  ⟨(C5_theorem c1st 1 "span" "element" rfl rfl).1 (by decide),
    (C5_theorem c4st 1 ".b" "class" rfl rfl).2 (by decide)⟩

/-! Chains of append calls, for the concatenation property. -/

/-- Fragment contributed by each method, as the spec's table states it:
`element(v) ↦ v`, `id(v) ↦ #v`, `class(v) ↦ .v`, `attr(v) ↦ [v]`,
`pseudoClass(v) ↦ :v`, `pseudoElement(v) ↦ ::v`. -/
def fmtFragment : String × String → String
  | (sel, v) =>
    if sel = "element" then v
    else if sel = "id" then "#" ++ v
    else if sel = "class" then "." ++ v
    else if sel = "attr" then "[" ++ v ++ "]"
    else if sel = "pseudoClass" then ":" ++ v
    else if sel = "pseudoElement" then "::" ++ v
    else v

def fragmentsConcat : List (String × String) → String
  | [] => ""
  | f :: rest => fmtFragment f ++ fragmentsConcat rest

/-- Dispatch a category name to the corresponding builder method of the
source. -/
def appendSel (st : Store) (i : Nat) (sel v : String) : Except String (Store × Nat) :=
  if sel = "element" then element st i v
  else if sel = "id" then id st i v
  else if sel = "class" then «class» st i v
  else if sel = "attr" then attr st i v
  else if sel = "pseudoClass" then pseudoClass st i v
  else if sel = "pseudoElement" then pseudoElement st i v
  else Except.error "unknown method"

/-- Run a chain of append calls starting at object `i`. -/
def runChain : Store → Nat → List (String × String) → Except String (Store × Nat)
  | st, i, [] => Except.ok (st, i)
  | st, i, (sel, v) :: rest =>
    match appendSel st i sel v with
    | Except.ok p => runChain p.1 p.2 rest
    | Except.error e => Except.error e

/-- A category sequence is valid after `last` when every step strictly
increases the rank, or repeats the immediately preceding category and that
category is one of the freely repeatable ones (class, attr, pseudoClass). -/
def validFrom : String → List (String × String) → Bool
  | _, [] => true
  | last, (sel, _) :: rest =>
    (decide (sel ∈ correctOrder)
        && (decide (jsIndexOf correctOrder last < jsIndexOf correctOrder sel)
          || (decide (last = sel)
            && decide (sel ∈ (["class", "attr", "pseudoClass"] : List String)))))
      && validFrom sel rest

theorem step_checks (self : BuilderState) (sel : String)
    (hlo : self.lastOrder = jsIndexOf correctOrder self.lastSelector)
    (hstep : jsIndexOf correctOrder self.lastSelector < jsIndexOf correctOrder sel
      ∨ (self.lastSelector = sel
        ∧ sel ∈ (["class", "attr", "pseudoClass"] : List String))) :
    getLastElemError self sel = false ∧ incorrectOrder self sel = false := by
  rcases hstep with h | ⟨heq, hmem⟩
  · constructor
    · apply getLastElemError_eq_false_of_ne
      intro he
      rw [he] at h
      omega
    · apply incorrectOrder_eq_false
      omega
  · constructor
    · simp only [List.mem_cons, List.mem_singleton, List.not_mem_nil, or_false] at hmem
      rcases hmem with rfl | rfl | rfl <;>
        exact getLastElemError_eq_false_of_not_singleton _ _
          (by decide) (by decide) (by decide)
    · apply incorrectOrder_eq_false
      rw [hlo, heq]

theorem runChain_ok (cs : List (String × String)) :
    ∀ (st : Store) (i : Nat),
      (st.get i).lastOrder = jsIndexOf correctOrder (st.get i).lastSelector →
      validFrom (st.get i).lastSelector cs = true →
      ∃ st' k, runChain st i cs = Except.ok (st', k)
        ∧ (st'.get k).cssCode = (st.get i).cssCode ++ fragmentsConcat cs := by
  induction cs with
  | nil =>
    intro st i _ _
    exact ⟨st, i, rfl, by simp [fragmentsConcat]⟩
  | cons f rest ih =>
    obtain ⟨sel, v⟩ := f
    intro st i hlo hvalid
    simp only [validFrom, Bool.and_eq_true, Bool.or_eq_true, decide_eq_true_eq] at hvalid
    obtain ⟨⟨hsel, hstep⟩, hrest⟩ := hvalid
    have hchecks := step_checks (st.get i) sel hlo hstep
    have hdisp : appendSel st i sel v = copyBuilder st i (fmtFragment (sel, v)) sel := by
      simp only [correctOrder, List.mem_cons, List.mem_singleton,
        List.not_mem_nil, or_false] at hsel
      rcases hsel with rfl | rfl | rfl | rfl | rfl | rfl <;> rfl
    have hcb := copyBuilder_ok st i (fmtFragment (sel, v)) sel hchecks.1 hchecks.2
    have hnew := Store.get_concat_self st
      ⟨(st.get i).cssCode ++ fmtFragment (sel, v), sel, jsIndexOf correctOrder sel⟩
    obtain ⟨st', k, hrun, hcss⟩ := ih
      (⟨st.objs ++ [⟨(st.get i).cssCode ++ fmtFragment (sel, v), sel,
          jsIndexOf correctOrder sel⟩]⟩ : Store)
      st.objs.length (by rw [hnew]) (by rw [hnew]; exact hrest)
    refine ⟨st', k, ?_, ?_⟩
    · simp only [runChain, hdisp, hcb]
      exact hrun
    · rw [hcss, hnew]
      show (st.get i).cssCode ++ fmtFragment (sel, v) ++ fragmentsConcat rest = _
      rw [String.append_assoc]
      rfl

/-- C6: for every category sequence that respects the total order (with
repeats only among class, attr and pseudoClass), running the chain from the
entry point succeeds and `stringify()` returns the concatenation, in call
order, of the formatted fragments with no other separators. -/
theorem C6_theorem (cs : List (String × String)) (h : validFrom "" cs = true) :
    ∃ st' k, runChain initStore 0 cs = Except.ok (st', k)
      ∧ (stringify st' k).2 = fragmentsConcat cs := by
  obtain ⟨st', k, hrun, hcss⟩ := runChain_ok cs initStore 0 (by decide) h
  refine ⟨st', k, hrun, ?_⟩
  show (st'.get k).cssCode = _
  rw [hcss]
  exact String.empty_append _

/-- The sequence `id('main').class('container').class('editable')`. -/
def c6csA : List (String × String) :=
  [("id", "main"), ("class", "container"), ("class", "editable")]

/-- The sequence `element('a').attr('href$=".png"').pseudoClass('focus')`. -/
def c6csB : List (String × String) :=
  [("element", "a"), ("attr", "href$=\".png\""), ("pseudoClass", "focus")]

/-- C6, witness: the two concrete examples of the spec produce
`#main.container.editable` and `a[href$=".png"]:focus`. -/
theorem C6_witness :
    (fragmentsConcat c6csA = "#main.container.editable"
      ∧ ∃ st' k, runChain initStore 0 c6csA = Except.ok (st', k)
        ∧ (stringify st' k).2 = fragmentsConcat c6csA)
    ∧ (fragmentsConcat c6csB = "a[href$=\".png\"]:focus"
      ∧ ∃ st' k, runChain initStore 0 c6csB = Except.ok (st', k)
        ∧ (stringify st' k).2 = fragmentsConcat c6csB) :=
  ⟨⟨rfl, C6_theorem c6csA (by decide)⟩, ⟨rfl, C6_theorem c6csB (by decide)⟩⟩

/-- C7: `combine(left, combinator, right)` called on the entry point succeeds
(the combined fragment carries no category: `lastSelector` is empty and
`lastOrder` is the no-category sentinel, so neither check can reject it), and
the stringified text of the result is the text of `left`, a space, the
combinator verbatim, a space, and the text of `right`. -/
theorem C7_theorem (st : Store) (l : Nat) (c : String) (r : Nat)
    (hbase : st.get 0 = emptyState) (hlr : l ≠ r) :
    ∃ st' k, combine st 0 l c r = Except.ok (st', k)
      ∧ (st'.get k).cssCode =
        (st.get l).cssCode ++ " " ++ c ++ " " ++ (st.get r).cssCode
      ∧ (st'.get k).lastSelector = ""
      ∧ (st'.get k).lastOrder = -1
      ∧ (stringify st' k).2 =
        (st.get l).cssCode ++ " " ++ c ++ " " ++ (st.get r).cssCode := by
  have hget_r : (st.set l emptyState).get r = st.get r := by
    rw [Store.get_set]
    split_ifs with h
    · exact absurd h.1.symm hlr
    · rfl
  have hget0 : ((st.set l emptyState).set r emptyState).get 0 = emptyState := by
    rw [Store.get_set]
    split_ifs with h
    · rfl
    · rw [Store.get_set]
      split_ifs with h2
      · rfl
      · exact hbase
  have hchk1 : getLastElemError (((st.set l emptyState).set r emptyState).get 0) "" = false := by
    rw [hget0]
    decide
  have hchk2 : incorrectOrder (((st.set l emptyState).set r emptyState).get 0) "" = false := by
    rw [hget0]
    decide
  have hcb := copyBuilder_ok ((st.set l emptyState).set r emptyState) 0
    ((st.get l).cssCode ++ " " ++ c ++ " " ++ ((st.set l emptyState).get r).cssCode) ""
    hchk1 hchk2
  have hnew := Store.get_concat_self ((st.set l emptyState).set r emptyState)
    ⟨(((st.set l emptyState).set r emptyState).get 0).cssCode ++
        ((st.get l).cssCode ++ " " ++ c ++ " " ++ ((st.set l emptyState).get r).cssCode),
      "", jsIndexOf correctOrder ""⟩
  refine ⟨_, _, hcb, ?_, ?_, ?_, ?_⟩
  · rw [hnew, hget0, hget_r]
    show ("" : String) ++ _ = _
    rw [String.empty_append]
  · rw [hnew]
  · rw [hnew]
    show jsIndexOf correctOrder "" = -1
    decide
  · show (Store.get _ _).cssCode = _
    rw [hnew, hget0, hget_r]
    show ("" : String) ++ _ = _
    rw [String.empty_append]

/-- C7, witness: `combine(element('div'), '+', element('table'))` stringifies
to `div + table`. -/
theorem C7_witness :
    ∃ st' k, combine c3st 0 1 "+" 2 = Except.ok (st', k)
      ∧ (st'.get k).cssCode =
        (c3st.get 1).cssCode ++ " " ++ "+" ++ " " ++ (c3st.get 2).cssCode
      ∧ (st'.get k).lastSelector = ""
      ∧ (st'.get k).lastOrder = -1
      ∧ (stringify st' k).2 =
        (c3st.get 1).cssCode ++ " " ++ "+" ++ " " ++ (c3st.get 2).cssCode :=
  C7_theorem c3st 1 "+" 2 (by decide) (by decide)

/-- C9: `combine` consumes its two argument snapshots — it calls `stringify`
on each, so after a successful `combine(left, c, right)` both arguments'
accumulated text and category state have been reset, and a later `stringify`
on either returns the empty string. -/
theorem C9_theorem (st : Store) (l : Nat) (c : String) (r : Nat) (st' : Store) (k : Nat)
    (hl : l < st.objs.length) (hr : r < st.objs.length)
    (h : combine st 0 l c r = Except.ok (st', k)) :
    st'.get l = emptyState ∧ st'.get r = emptyState
      ∧ (stringify st' l).2 = "" ∧ (stringify st' r).2 = "" := by
  obtain ⟨rfl, rfl⟩ := copyBuilder_ok_inv ((st.set l emptyState).set r emptyState) 0
    ((st.get l).cssCode ++ " " ++ c ++ " " ++ ((st.set l emptyState).get r).cssCode) ""
    st' k h
  have hlen : ((st.set l emptyState).set r emptyState).objs.length = st.objs.length := by
    rw [Store.length_set, Store.length_set]
  have hgl :
      ((⟨((st.set l emptyState).set r emptyState).objs ++
        [⟨(((st.set l emptyState).set r emptyState).get 0).cssCode ++
            ((st.get l).cssCode ++ " " ++ c ++ " " ++
              ((st.set l emptyState).get r).cssCode),
          "", jsIndexOf correctOrder ""⟩]⟩ : Store).get l) = emptyState := by
    rw [Store.get_concat_lt _ _ l (by omega), Store.get_set]
    split_ifs with h1
    · rfl
    · rw [Store.get_set]
      split_ifs with h2
      · rfl
      · exact absurd ⟨rfl, hl⟩ h2
  have hgr :
      ((⟨((st.set l emptyState).set r emptyState).objs ++
        [⟨(((st.set l emptyState).set r emptyState).get 0).cssCode ++
            ((st.get l).cssCode ++ " " ++ c ++ " " ++
              ((st.set l emptyState).get r).cssCode),
          "", jsIndexOf correctOrder ""⟩]⟩ : Store).get r) = emptyState := by
    rw [Store.get_concat_lt _ _ r (by omega), Store.get_set]
    split_ifs with h1
    · rfl
    · exact absurd ⟨rfl, by rw [Store.length_set]; exact hr⟩ h1
  refine ⟨hgl, hgr, ?_, ?_⟩
  · show (Store.get _ _).cssCode = ""
    rw [hgl]
    rfl
  · show (Store.get _ _).cssCode = ""
    rw [hgr]
    rfl

/-- C9, witness: in the concrete `div`/`table` heap, after
`combine(divSnapshot, '+', tableSnapshot)` both argument snapshots are reset
and stringify to the empty string. -/
theorem C9_witness :
    c3stAfter.get 1 = emptyState ∧ c3stAfter.get 2 = emptyState
      ∧ (stringify c3stAfter 1).2 = "" ∧ (stringify c3stAfter 2).2 = "" :=
  C9_theorem c3st 1 "+" 2 c3stAfter 3 (by decide) (by decide) rfl

end CssBuilder

/-! The `Rectangle` factory of the source. -/

structure RectangleObj where
  width : Int
  height : Int
deriving DecidableEq, Repr

/-- `Rectangle` of the source: an object literal with `width`, `height` and a
`getArea` method; no validation of the inputs is performed anywhere (the
function is total). -/
def Rectangle (width height : Int) : RectangleObj := ⟨width, height⟩

/-- The `getArea()` method: `this.width * this.height`. -/
def RectangleObj.getArea (self : RectangleObj) : Int := self.width * self.height

/-- C10: `Rectangle(width, height)` exposes the given `width` and `height`
and a `getArea()` returning their product, with no validation of the inputs;
in particular `Rectangle(10, 20)` has area 200, width 10 and height 20. -/
theorem C10_theorem :
    (∀ w h : Int, (Rectangle w h).width = w ∧ (Rectangle w h).height = h
      ∧ (Rectangle w h).getArea = w * h)
      ∧ (Rectangle 10 20).getArea = 200
      ∧ (Rectangle 10 20).width = 10 ∧ (Rectangle 10 20).height = 20 :=
  ⟨fun _ _ => ⟨rfl, rfl, rfl⟩, rfl, rfl, rfl⟩

/-! JSON round-trip model for `getJSON` / `fromJSON`.

The source functions delegate to the `JSON.stringify` and `JSON.parse`
builtins, which are not part of the repository; following the spec they are
modelled as a canonical textual serializer and parser for flat objects —
ordered lists of key/value pairs whose values are integers or strings, with
object key order equal to insertion order. -/

namespace JsonModel

/-- A flat structured-data value: an integer or a string. -/
inductive JValue where
  | num : Int → JValue
  | str : String → JValue
deriving DecidableEq, Repr

def lbrace : Char := Char.ofNat 123

def rbrace : Char := Char.ofNat 125

def digitChar (d : Nat) : Char := Char.ofNat (48 + d)

def charVal (c : Char) : Nat := c.toNat - 48

/-- Decimal digit characters of `n`, most significant first. -/
def natToChars (n : Nat) : List Char :=
  if n = 0 then ['0'] else (Nat.digits 10 n).reverse.map digitChar

def intToChars : Int → List Char
  | Int.ofNat n => natToChars n
  | Int.negSucc m => '-' :: natToChars (m + 1)

def serializeValueChars : JValue → List Char
  | JValue.num n => intToChars n
  | JValue.str s => '"' :: (s.data ++ ['"'])

def serializePairChars (p : String × JValue) : List Char :=
  '"' :: (p.1.data ++ ('"' :: ':' :: serializeValueChars p.2))

def serializePairsChars : List (String × JValue) → List Char
  | [] => []
  | [p] => serializePairChars p
  | p :: q :: rest => serializePairChars p ++ (',' :: serializePairsChars (q :: rest))

/-- Modelled from the spec: `getJSON` of the source returns
`JSON.stringify(obj)`; the builtin is absent from the repository, and the
spec describes SerializeToText as the canonical textual serialization with
object key order equal to insertion order. -/
def getJSON (obj : List (String × JValue)) : String :=
  String.mk (lbrace :: (serializePairsChars obj ++ [rbrace]))

/-- Scan up to the closing quote of a string literal. -/
def scanStr : List Char → Option (List Char × List Char)
  | [] => none
  | c :: rest =>
    if c = '"' then some ([], rest)
    else
      match scanStr rest with
      | some (s, r) => some (c :: s, r)
      | none => none

/-- Scan a maximal run of decimal digits. -/
def scanDigits : List Char → List Char × List Char
  | [] => ([], [])
  | c :: rest =>
    if c.isDigit then
      let p := scanDigits rest
      (c :: p.1, p.2)
    else ([], c :: rest)

def charsToNat (ds : List Char) : Nat :=
  Nat.ofDigits 10 ((ds.map charVal).reverse)

def parseValue : List Char → Option (JValue × List Char)
  | [] => none
  | c :: cs =>
    if c = '"' then
      match scanStr cs with
      | some (s, r) => some (JValue.str (String.mk s), r)
      | none => none
    else if c = '-' then
      match scanDigits cs with
      | ([], _) => none
      | (d :: ds, r) => some (JValue.num (-(charsToNat (d :: ds) : Int)), r)
    else
      match scanDigits (c :: cs) with
      | ([], _) => none
      | (d :: ds, r) => some (JValue.num ((charsToNat (d :: ds) : Int)), r)

def parsePairs : Nat → List Char → Option (List (String × JValue) × List Char)
  | 0, _ => none
  | _ + 1, [] => none
  | fuel + 1, c :: rest =>
    if c = '"' then
      match scanStr rest with
      | none => none
      | some (k, r1) =>
        match r1 with
        | ':' :: r2 =>
          match parseValue r2 with
          | none => none
          | some (v, r3) =>
            match r3 with
            | ',' :: r4 =>
              match parsePairs fuel r4 with
              | some (ps, r5) => some ((String.mk k, v) :: ps, r5)
              | none => none
            | _ => some ([(String.mk k, v)], r3)
        | _ => none
    else none

def parseJSONChars : List Char → Option (List (String × JValue))
  | [] => none
  | c :: rest =>
    if c = lbrace then
      if rest = [rbrace] then some []
      else
        match parsePairs rest.length rest with
        | some (ps, r) => if r = [rbrace] then some ps else none
        | none => none
    else none

/-- Modelled from the spec: the structured-data text decoder used by
`fromJSON` is the `JSON.parse` builtin, absent from the repository. -/
def parseJSON (s : String) : Option (List (String × JValue)) :=
  parseJSONChars s.data

/-- `fromJSON` of the source: parse the text, take the parsed object's values
in enumeration order (`Object.values`), and pass them positionally to the
type's constructor (`new proto.constructor(...values)`), here abstracted as a
function from the value list. -/
def fromJSON {α : Type} (ctorFn : List JValue → α) (json : String) : Option α :=
  match parseJSON json with
  | some obj => some (ctorFn (obj.map Prod.snd))
  | none => none

/-- A character that needs no escaping in a string literal. -/
def plainChar (c : Char) : Bool := (c != '"') && (c != '\\')

def wfKey (s : String) : Bool := s.data.all plainChar

def wfVal : JValue → Bool
  | JValue.num _ => true
  | JValue.str s => s.data.all plainChar

def wfObj (obj : List (String × JValue)) : Bool :=
  obj.all fun p => wfKey p.1 && wfVal p.2

def noDigitHead : List Char → Bool
  | [] => true
  | c :: _ => !c.isDigit

/-! Round-trip lemmas. -/

theorem scanStr_append (s r : List Char) (hs : ∀ c ∈ s, c ≠ '"') :
    scanStr (s ++ ('"' :: r)) = some (s, r) := by
  induction s with
  | nil => simp [scanStr]
  | cons a t ih =>
    have ha : ¬(a = '"') := hs a (List.mem_cons_self a t)
    simp [scanStr, ha, ih fun c hc => hs c (List.mem_cons_of_mem a hc)]

theorem scanDigits_append (ds r : List Char) (hds : ∀ c ∈ ds, c.isDigit = true)
    (hr : noDigitHead r = true) : scanDigits (ds ++ r) = (ds, r) := by
  induction ds with
  | nil =>
    cases r with
    | nil => rfl
    | cons c t =>
      have hc : c.isDigit = false := by
        simpa [noDigitHead] using hr
      simp [scanDigits, hc]
  | cons a t ih =>
    have ha := hds a (List.mem_cons_self a t)
    simp [scanDigits, ha, ih fun c hc => hds c (List.mem_cons_of_mem a hc)]

theorem charVal_digitChar {d : Nat} (h : d < 10) : charVal (digitChar d) = d := by
  interval_cases d <;> decide

theorem digitChar_isDigit {d : Nat} (h : d < 10) : (digitChar d).isDigit = true := by
  interval_cases d <;> decide

theorem natToChars_all_digits (n : Nat) : ∀ c ∈ natToChars n, c.isDigit = true := by
  intro c hc
  unfold natToChars at hc
  split_ifs at hc with h
  · simp only [List.mem_singleton] at hc
    subst hc
    decide
  · simp only [List.mem_map, List.mem_reverse] at hc
    obtain ⟨d, hd, rfl⟩ := hc
    exact digitChar_isDigit (Nat.digits_lt_base (by norm_num) hd)

theorem natToChars_ne_nil (n : Nat) : natToChars n ≠ [] := by
  unfold natToChars
  split_ifs with h
  · simp
  · simp [Nat.digits_ne_nil_iff_ne_zero.mpr h]

theorem charsToNat_natToChars (n : Nat) : charsToNat (natToChars n) = n := by
  unfold natToChars
  split_ifs with h
  · subst h
    decide
  · unfold charsToNat
    rw [List.map_map]
    have hcongr : (Nat.digits 10 n).reverse.map (charVal ∘ digitChar) =
        (Nat.digits 10 n).reverse.map (fun d => d) := by
      apply List.map_congr_left
      intro d hd
      exact charVal_digitChar (Nat.digits_lt_base (by norm_num) (List.mem_reverse.mp hd))
    rw [hcongr, List.map_id', List.reverse_reverse, Nat.ofDigits_digits]

theorem isDigit_ne_quote {c : Char} (h : c.isDigit = true) : c ≠ '"' := by
  intro he
  subst he
  exact absurd h (by decide)

theorem isDigit_ne_minus {c : Char} (h : c.isDigit = true) : c ≠ '-' := by
  intro he
  subst he
  exact absurd h (by decide)

theorem parseValue_serialize (v : JValue) (r : List Char)
    (hv : wfVal v = true) (hr : noDigitHead r = true) :
    parseValue (serializeValueChars v ++ r) = some (v, r) := by
  cases v with
  | str s =>
    have hs : ∀ c ∈ s.data, c ≠ '"' := by
      intro c hc
      have hp := List.all_eq_true.mp hv c hc
      simp only [plainChar, Bool.and_eq_true, bne_iff_ne] at hp
      exact hp.1
    show parseValue (('"' :: (s.data ++ ['"'])) ++ r) = _
    simp only [List.cons_append, List.append_assoc, List.singleton_append]
    simp [parseValue, scanStr_append s.data r hs]
  | num n =>
    cases n with
    | ofNat m =>
      obtain ⟨d, ds, hds⟩ : ∃ d ds, natToChars m = d :: ds := by
        cases hnc : natToChars m with
        | nil => exact absurd hnc (natToChars_ne_nil m)
        | cons d ds => exact ⟨d, ds, rfl⟩
      have hall : ∀ c ∈ d :: ds, c.isDigit = true := by
        rw [← hds]
        exact natToChars_all_digits m
      have hdig : d.isDigit = true := hall d (List.mem_cons_self d ds)
      show parseValue (natToChars m ++ r) = _
      rw [hds, List.cons_append]
      simp only [parseValue, if_neg (isDigit_ne_quote hdig), if_neg (isDigit_ne_minus hdig)]
      rw [← List.cons_append, scanDigits_append (d :: ds) r hall hr]
      show some (JValue.num ((charsToNat (d :: ds) : Nat) : Int), r) = _
      rw [← hds, charsToNat_natToChars]
      rfl
    | negSucc m =>
      obtain ⟨d, ds, hds⟩ : ∃ d ds, natToChars (m + 1) = d :: ds := by
        cases hnc : natToChars (m + 1) with
        | nil => exact absurd hnc (natToChars_ne_nil (m + 1))
        | cons d ds => exact ⟨d, ds, rfl⟩
      have hall : ∀ c ∈ d :: ds, c.isDigit = true := by
        rw [← hds]
        exact natToChars_all_digits (m + 1)
      show parseValue ('-' :: (natToChars (m + 1) ++ r)) = _
      simp only [parseValue, if_neg (by decide : ¬('-' = '"')), if_pos rfl]
      rw [hds, scanDigits_append (d :: ds) r hall hr]
      show some (JValue.num (-((charsToNat (d :: ds) : Nat) : Int)), r) = _
      rw [← hds, charsToNat_natToChars]
      rw [Int.negSucc_eq]
      norm_num

theorem parsePairs_serialize :
    ∀ (obj : List (String × JValue)) (fuel : Nat),
      obj ≠ [] → wfObj obj = true → obj.length ≤ fuel →
      parsePairs fuel (serializePairsChars obj ++ [rbrace]) = some (obj, [rbrace]) := by
  intro obj
  induction obj with
  | nil =>
    intro fuel h
    exact absurd rfl h
  | cons p t ih =>
    intro fuel _ hwf hfuel
    obtain ⟨fuel, rfl⟩ : ∃ f, fuel = f + 1 :=
      ⟨fuel - 1, by simp only [List.length_cons] at hfuel; omega⟩
    have hwf' : wfKey p.1 = true ∧ wfVal p.2 = true ∧ wfObj t = true := by
      simpa [wfObj, Bool.and_eq_true, and_assoc] using hwf
    have hk : ∀ c ∈ p.1.data, c ≠ '"' := by
      intro c hc
      have hp := List.all_eq_true.mp hwf'.1 c hc
      simp only [plainChar, Bool.and_eq_true, bne_iff_ne] at hp
      exact hp.1
    have hv : wfVal p.2 = true := hwf'.2.1
    cases t with
    | nil =>
      have hscan := scanStr_append p.1.data (':' :: (serializeValueChars p.2 ++ [rbrace])) hk
      have hval := parseValue_serialize p.2 [rbrace] hv (by decide)
      show parsePairs (fuel + 1)
          (('"' :: (p.1.data ++ ('"' :: ':' :: serializeValueChars p.2))) ++ [rbrace]) = _
      simp only [List.cons_append, List.append_assoc]
      simp only [parsePairs, if_pos rfl, hscan, hval]
      rfl
    | cons q t' =>
      have hscan := scanStr_append p.1.data
        (':' :: (serializeValueChars p.2 ++ (',' :: (serializePairsChars (q :: t') ++ [rbrace])))) hk
      have hval := parseValue_serialize p.2 (',' :: (serializePairsChars (q :: t') ++ [rbrace]))
        hv rfl
      have hrec := ih fuel (by simp) hwf'.2.2
        (by simp only [List.length_cons] at hfuel ⊢; omega)
      show parsePairs (fuel + 1)
          ((('"' :: (p.1.data ++ ('"' :: ':' :: serializeValueChars p.2))) ++
            (',' :: serializePairsChars (q :: t'))) ++ [rbrace]) = _
      simp only [List.cons_append, List.append_assoc]
      simp only [parsePairs, if_pos rfl, hscan, hval, hrec]
      rfl

theorem serializePairsChars_ne_nil (obj : List (String × JValue)) (h : obj ≠ []) :
    serializePairsChars obj ≠ [] := by
  cases obj with
  | nil => exact absurd rfl h
  | cons p t =>
    cases t with
    | nil => simp [serializePairsChars, serializePairChars]
    | cons q t' => simp [serializePairsChars, serializePairChars]

theorem length_serializePairs (obj : List (String × JValue)) :
    obj.length ≤ (serializePairsChars obj).length := by
  induction obj with
  | nil => simp [serializePairsChars]
  | cons p t ih =>
    cases t with
    | nil => simp [serializePairsChars, serializePairChars]
    | cons q t' =>
      have h1 : 1 ≤ (serializePairChars p).length := by
        simp [serializePairChars]
      simp only [serializePairsChars, List.length_append, List.length_cons] at *
      omega

/-- C8: serializing a well-formed flat object and deserializing it with a
positional constructor round-trips — the parser recovers exactly the
original key/value list, so the constructor receives the object's values
positionally in enumeration order, yielding the instance built from the
original values. -/
theorem C8_theorem {α : Type} (ctorFn : List JValue → α) (obj : List (String × JValue))
    (hwf : wfObj obj = true) :
    parseJSON (getJSON obj) = some obj
      ∧ fromJSON ctorFn (getJSON obj) = some (ctorFn (obj.map Prod.snd)) := by
  have hparse : parseJSON (getJSON obj) = some obj := by
    show parseJSONChars (lbrace :: (serializePairsChars obj ++ [rbrace])) = some obj
    cases obj with
    | nil => rfl
    | cons p t =>
      have hne : serializePairsChars (p :: t) ++ [rbrace] ≠ [rbrace] := by
        intro he
        have hlen := congrArg List.length he
        simp only [List.length_append, List.length_singleton] at hlen
        exact serializePairsChars_ne_nil (p :: t) (by simp)
          (List.length_eq_zero.mp (by omega))
      have hfuel : (p :: t).length ≤ (serializePairsChars (p :: t) ++ [rbrace]).length := by
        have := length_serializePairs (p :: t)
        simp only [List.length_append, List.length_singleton]
        omega
      have hpp := parsePairs_serialize (p :: t)
        (serializePairsChars (p :: t) ++ [rbrace]).length (by simp) hwf hfuel
      simp only [parseJSONChars, if_pos rfl, if_neg hne, hpp, if_pos rfl]
      rfl
  refine ⟨hparse, ?_⟩
  show (match parseJSON (getJSON obj) with
    | some o => some (ctorFn (o.map Prod.snd))
    | none => none) = _
  rw [hparse]

/-- The example object `{width: 10, height: 20}`. -/
def c8obj : List (String × JValue) := [("width", JValue.num 10), ("height", JValue.num 20)]

/-- C8, witness: the spec's example `{width:10, height:20}` round-trips, and
deserializing constructs the instance from the values `[10, 20]` positionally. -/
theorem C8_witness :
    parseJSON (getJSON c8obj) = some c8obj
      ∧ fromJSON (fun vs => vs) (getJSON c8obj) = some ((fun vs => vs) (c8obj.map Prod.snd)) :=
  C8_theorem (fun vs => vs) c8obj (by decide)

end JsonModel

